import Mathlib

/-!
Verification of the gh-secrets-cli core: the OAuth device-flow polling
loop (`GitHubOAuthDevice.pollForAccessToken`), the sealed-box secret
encryption pipeline (`GitHubService.encryptSecret`,
`GitHubService.createOrUpdateRepoSecret`, `GitHubService.batchCreateSecrets`)
and secret-name validation (`validateSecretName`, `filterValidSecrets`).

The TypeScript source is shallowly embedded: each poll response from the
token endpoint is an `Except` value (a thrown transport error, or the JSON
body with its `error` / `access_token` fields, absent fields read as the
empty string, matching JavaScript truthiness checks `if (data.error)` /
`if (data.access_token)`); the recursive `setTimeout` polling loop is run
over an explicit list of scripted responses, recording the wait scheduled
before each subsequent poll.  Network effects and libsodium's
`crypto_box_seal` are oracle parameters; base64 and UTF-8 are executable.
-/

namespace GhSecretsCli

/-- JSON body returned by the token endpoint, as the source reads it:
`data.error` and `data.access_token`, with a missing field read as `""`
(both are only ever inspected through JavaScript truthiness). -/
structure TokenResponse where
  error : String
  access_token : String
  token_type : String
  scope : String
deriving DecidableEq, Repr

/-- A single poll attempt as `axios.post` delivers it: either the request
threw (transport-level failure, carried as an opaque message) or a parsed
JSON body came back. -/
def PollResponse := Except String TokenResponse

instance exceptDecEq {α β : Type} [DecidableEq α] [DecidableEq β] :
    DecidableEq (Except α β)
  | Except.error x, Except.error y =>
    decidable_of_iff (x = y) ⟨fun h => by rw [h], fun h => by cases h; rfl⟩
  | Except.error _, Except.ok _ => isFalse (fun h => Except.noConfusion h)
  | Except.ok _, Except.error _ => isFalse (fun h => Except.noConfusion h)
  | Except.ok x, Except.ok y =>
    decidable_of_iff (x = y) ⟨fun h => by rw [h], fun h => by cases h; rfl⟩

instance : DecidableEq PollResponse :=
  @exceptDecEq String TokenResponse _ _

/-- Terminal failures of `pollForAccessToken`, one per `reject(...)` site in
the source. -/
inductive OAuthFailure where
  | deviceCodeExpired
  | userDeniedAuthorization
  | providerError (code : String)
  | transportError (msg : String)
deriving DecidableEq, Repr

/-- What one iteration of the source's `poll` closure does with a response:
schedule the next poll after `waitSeconds` (a `setTimeout(poll, ...)`),
reject with a failure, or resolve with the token body. -/
inductive PollStep where
  | next (waitSeconds : Nat)
  | failure (e : OAuthFailure)
  | success (data : TokenResponse)
deriving DecidableEq, Repr

/-- One iteration of the `poll` closure in
`GitHubOAuthDevice.pollForAccessToken` (src/unnamed/part_001, the OAuth
file, lines 138-190).  `interval` is the captured function parameter; the
source never reassigns it, so every branch computes its wait from this
same value. -/
def pollStepOf (interval : Nat) (r : PollResponse) : PollStep :=
  match r with
  | Except.error msg => PollStep.failure (OAuthFailure.transportError msg)
  | Except.ok data =>
    if data.error ≠ "" then
      if data.error = "authorization_pending" then
        PollStep.next interval
      else if data.error = "slow_down" then
        PollStep.next (interval + 5)
      else if data.error = "expired_token" then
        PollStep.failure OAuthFailure.deviceCodeExpired
      else if data.error = "access_denied" then
        PollStep.failure OAuthFailure.userDeniedAuthorization
      else
        PollStep.failure (OAuthFailure.providerError data.error)
    else if data.access_token ≠ "" then
      PollStep.success data
    else
      PollStep.next interval

/-- Run the polling loop over a scripted list of responses, one response
per HTTP poll issued.  Returns the waits scheduled between polls (seconds
passed to `setTimeout`, in order) and the outcome: `some` a rejection or
resolution, `none` when the script ran out while the loop would still poll.
Unconsumed script entries are polls that were never issued. -/
def pollRun (interval : Nat) : List PollResponse → List Nat × Option (Except OAuthFailure TokenResponse)
  | [] => ([], none)
  | r :: rest =>
    match pollStepOf interval r with
    | PollStep.next w =>
      let t := pollRun interval rest
      (w :: t.1, t.2)
    | PollStep.failure e => ([], some (Except.error e))
    | PollStep.success data => ([], some (Except.ok data))

/-- Whether a step keeps the loop polling. -/
def stepContinues : PollStep → Bool
  | PollStep.next _ => true
  | _ => false

/-- The wait a continuing step schedules (0 for terminal steps, unused). -/
def stepWait : PollStep → Nat
  | PollStep.next w => w
  | _ => 0

/-- A response body with only the `error` field set, the shape the provider
sends for all non-success outcomes. -/
def errResp (e : String) : TokenResponse :=
  { error := e, access_token := "", token_type := "", scope := "" }

/-- A successful response body carrying a token. -/
def tokResp (tok scope : String) : TokenResponse :=
  { error := "", access_token := tok, token_type := "bearer", scope := scope }

/-- A response body carrying both an error code and a token, exercising the
classification order. -/
def bothResp (e tok : String) : TokenResponse :=
  { error := e, access_token := tok, token_type := "bearer", scope := "repo" }

/-! ### Base64 (standard alphabet, `sodium.base64_variants.ORIGINAL`) -/

/-- Value of one character of the standard base64 alphabet, `none` for a
character outside it. -/
def b64CharVal (c : Char) : Option Nat :=
  if 'A' ≤ c ∧ c ≤ 'Z' then some (c.toNat - 'A'.toNat)
  else if 'a' ≤ c ∧ c ≤ 'z' then some (c.toNat - 'a'.toNat + 26)
  else if '0' ≤ c ∧ c ≤ '9' then some (c.toNat - '0'.toNat + 52)
  else if c = '+' then some 62
  else if c = '/' then some 63
  else none

/-- Decode every character of a base64 data run, failing on the first
character outside the standard alphabet. -/
def b64Vals : List Char → Option (List Nat)
  | [] => some []
  | c :: cs =>
    match b64CharVal c, b64Vals cs with
    | some v, some vs => some (v :: vs)
    | _, _ => none

/-- Reassemble 6-bit values into bytes (a final group of 2 or 3 values is
the padded remainder of the last quantum). -/
def b64ValsToBytes : List Nat → List Nat
  | a :: b :: c :: d :: rest =>
    (a * 4 + b / 16) :: ((b % 16) * 16 + c / 4) :: ((c % 4) * 64 + d) :: b64ValsToBytes rest
  | [a, b, c] => [a * 4 + b / 16, (b % 16) * 16 + c / 4]
  | [a, b] => [a * 4 + b / 16]
  | [_] => []
  | [] => []

/-- Canonical-padding-bits check of `sodium_base642bin`: in a final quantum
of two characters the low 4 bits of the second value are discarded and
must be zero, in a final quantum of three the low 2 bits of the third;
otherwise the library rejects the input (`acc` left non-zero). A lone
trailing character is likewise invalid. -/
def b64TailCanonical : List Nat → Bool
  | _ :: _ :: _ :: _ :: rest => b64TailCanonical rest
  | [_, b] => b % 16 = 0
  | [_, _, c] => c % 4 = 0
  | [_] => false
  | [] => true

/-- Embedding of `sodium.from_base64(s, ORIGINAL)`: standard alphabet with padding.
Rejects a string whose length is not a multiple of 4, with more than two
trailing `=`, with `=` anywhere but the end, containing a character
outside the alphabet, or whose final quantum has non-zero discarded
padding bits; such inputs make the library throw, which the embedding
renders as `none`. -/
def from_base64 (s : String) : Option (List Nat) :=
  let cs := s.data
  let pad := (cs.reverse.takeWhile (fun c => c = '=')).length
  if cs.length % 4 ≠ 0 then none
  else if pad > 2 then none
  else
    let dataChars := cs.take (cs.length - pad)
    if dataChars.any (fun c => c = '=') then none
    else
      match b64Vals dataChars with
      | none => none
      | some vs =>
        if b64TailCanonical vs then some (b64ValsToBytes vs) else none

/-- The standard base64 alphabet in value order. -/
def b64Alphabet : List Char :=
  "ABCDEFGHIJKLMNOPQRSTUVWXYZabcdefghijklmnopqrstuvwxyz0123456789+/".data

/-- Character for a 6-bit value. -/
def b64EncChar (v : Nat) : Char := b64Alphabet.getD v 'A'

/-- Encode bytes three at a time, padding the final quantum with `=`. -/
def b64EncodeChunks : List Nat → List Char
  | a :: b :: c :: rest =>
    b64EncChar (a / 4) :: b64EncChar ((a % 4) * 16 + b / 16) ::
      b64EncChar ((b % 16) * 4 + c / 64) :: b64EncChar (c % 64) :: b64EncodeChunks rest
  | [a, b] => [b64EncChar (a / 4), b64EncChar ((a % 4) * 16 + b / 16), b64EncChar ((b % 16) * 4), '=']
  | [a] => [b64EncChar (a / 4), b64EncChar ((a % 4) * 16), '=', '=']
  | [] => []

/-- Embedding of `sodium.to_base64(bytes, ORIGINAL)`: standard alphabet with padding. -/
def to_base64 (bytes : List Nat) : String :=
  String.mk (b64EncodeChunks bytes)

/-- Embedding of `sodium.from_string`: the UTF-8 bytes of a string (character by
character, as the UTF-8 encoding of the code points). -/
def from_string (s : String) : List Nat :=
  (s.data.map String.utf8EncodeChar).flatten.map (fun b => b.toNat)

/-! ### Secret encryption and upload (`src/github.ts`) -/

/-- The one failure `GitHubService.encryptSecret` can raise locally:
`sodium.from_base64` throwing on malformed key material. -/
inductive EncError where
  | encodingError
deriving DecidableEq, Repr

/-- Embedding of `GitHubService.encryptSecret` (src/github.ts lines 136-147), with
`crypto_box_seal` abstracted as `sealBox` (message bytes → recipient public
key bytes → ciphertext bytes; the real primitive draws a fresh ephemeral
key, so `sealBox` stands for one call's outcome).  `await sodium.ready` is a
readiness barrier that cannot fail and is not represented.  The source
decodes the key, takes the secret's UTF-8 bytes, seals, and re-encodes as
base64 — nothing else. -/
def encryptSecret (sealBox : List Nat → List Nat → List Nat)
    (secretValue publicKey : String) : Except EncError String :=
  match from_base64 publicKey with
  | none => Except.error EncError.encodingError
  | some binkey => Except.ok (to_base64 (sealBox (from_string secretValue) binkey))

/-- The `PublicKey` record as returned by `getRepoPublicKey`. -/
structure PublicKey where
  key_id : String
  key : String
deriving DecidableEq, Repr

/-- A request sent to the secrets API gateway by the upload pipeline. -/
inductive ApiRequest where
  | getPublicKey (owner repo : String)
  | putSecret (owner repo secretName encryptedValue keyId : String)
deriving DecidableEq, Repr

/-- Errors propagating out of `createOrUpdateRepoSecret`: a throw from the
public-key fetch, from `encryptSecret`, or from the PUT itself. -/
inductive RepoSecretError where
  | publicKeyFetchFailed (msg : String)
  | encryptionFailed
  | putFailed (msg : String)
deriving DecidableEq, Repr

/-- Embedding of `GitHubService.createOrUpdateRepoSecret` (src/github.ts lines 152-177).
Network effects are oracles: `getKeyResult` is what `getRepoPublicKey`
returns (or the transport error it throws), `putResult` what the PUT would
return if issued.  The second component is the trace of requests actually
sent to the secrets API gateway, in order.  The source awaits the key
fetch, then encryption, then issues the PUT whose body carries exactly
`encrypted_value` and `key_id` (plus owner/repo/name routing); any throw
propagates and skips the rest. -/
def createOrUpdateRepoSecret (sealBox : List Nat → List Nat → List Nat)
    (getKeyResult : Except String PublicKey) (putResult : Except String Unit)
    (owner repo secretName secretValue : String) :
    Except RepoSecretError Unit × List ApiRequest :=
  match getKeyResult with
  | Except.error msg =>
    (Except.error (RepoSecretError.publicKeyFetchFailed msg),
     [ApiRequest.getPublicKey owner repo])
  | Except.ok pk =>
    match encryptSecret sealBox secretValue pk.key with
    | Except.error _ =>
      (Except.error RepoSecretError.encryptionFailed,
       [ApiRequest.getPublicKey owner repo])
    | Except.ok encryptedValue =>
      match putResult with
      | Except.error msg =>
        (Except.error (RepoSecretError.putFailed msg),
         [ApiRequest.getPublicKey owner repo,
          ApiRequest.putSecret owner repo secretName encryptedValue pk.key_id])
      | Except.ok _ =>
        (Except.ok (),
         [ApiRequest.getPublicKey owner repo,
          ApiRequest.putSecret owner repo secretName encryptedValue pk.key_id])

/-- Embedding of `GitHubService.batchCreateSecrets` (src/github.ts lines 203-224).
`attempt name value` stands for the awaited
`createOrUpdateRepoSecret(owner, repo, name, value)` call: `ok` when the
upload completed, `error msg` when it threw with message `msg` (the
source's `error.message` / `String(error)` extraction).  The loop walks
`Object.entries` in order, pushing the name to `success` or the
name/message pair to `failed`, and a throw never leaves the `try`. -/
def batchCreateSecrets (attempt : String → String → Except String Unit) :
    List (String × String) → List String × List (String × String)
  | [] => ([], [])
  | (name, value) :: rest =>
    let t := batchCreateSecrets attempt rest
    match attempt name value with
    | Except.ok _ => (name :: t.1, t.2)
    | Except.error msg => (t.1, (name, msg) :: t.2)

/-! ### Secret-name validation (.env utilities) -/

/-- The class `[A-Za-z_]`: a legal first character of the secret-name pattern. -/
def isStartChar (c : Char) : Bool :=
  ('A' ≤ c && c ≤ 'Z') || ('a' ≤ c && c ≤ 'z') || c = '_'

/-- The class `[A-Za-z0-9_]`: a legal subsequent character. -/
def isBodyChar (c : Char) : Bool :=
  isStartChar c || ('0' ≤ c && c ≤ '9')

/-- Match of `^[A-Za-z_][A-Za-z0-9_]*$` against the whole string. -/
def matchesNamePattern (name : String) : Bool :=
  match name.data with
  | [] => false
  | c :: cs => isStartChar c && cs.all isBodyChar

/-- Embedding of `validateSecretName` (src/unnamed/part_001 env-utility file, lines
50-57): the test of `/^(?!GITHUB_)[A-Za-z_][A-Za-z0-9_]*$/` — the negative
lookahead forbids the literal case-sensitive prefix `GITHUB_` (a prefix
test on the characters) and the rest is the anchored pattern. -/
def validateSecretName (name : String) : Bool :=
  !("GITHUB_".data.isPrefixOf name.data) && matchesNamePattern name

/-- Embedding of `filterValidSecrets` (same file, lines 62-78): walk the entries in
order, a valid name keeps its value in `valid`, an invalid name is pushed
onto `invalid`. -/
def filterValidSecrets : List (String × String) →
    List (String × String) × List String
  | [] => ([], [])
  | (name, value) :: rest =>
    let t := filterValidSecrets rest
    if validateSecretName name then ((name, value) :: t.1, t.2)
    else (t.1, name :: t.2)

/-- Whether a scripted response is a `slow_down` body. -/
def isSlowDownResp : PollResponse → Bool
  | Except.ok d => d.error = "slow_down"
  | Except.error _ => false

/-! ### Theorems -/

lemma pollRun_cons (interval : Nat) (r : PollResponse) (rest : List PollResponse) :
    pollRun interval (r :: rest) =
      match pollStepOf interval r with
      | PollStep.next w => (w :: (pollRun interval rest).1, (pollRun interval rest).2)
      | PollStep.failure e => ([], some (Except.error e))
      | PollStep.success d => ([], some (Except.ok d)) := by
  cases h : pollStepOf interval r <;> simp [pollRun, h]

lemma pollStepOf_empty (interval : Nat) (data : TokenResponse)
    (h1 : data.error = "") (h2 : data.access_token = "") :
    pollStepOf interval (Except.ok data) = PollStep.next interval := by
  simp only [pollStepOf]
  rw [if_neg (by simp [h1]), if_neg (by simp [h2])]

lemma pollStepOf_token (interval : Nat) (data : TokenResponse)
    (h1 : data.error = "") (h2 : data.access_token ≠ "") :
    pollStepOf interval (Except.ok data) = PollStep.success data := by
  simp only [pollStepOf]
  rw [if_neg (by simp [h1]), if_pos h2]

lemma pollStepOf_pending (interval : Nat) (data : TokenResponse)
    (h : data.error = "authorization_pending") :
    pollStepOf interval (Except.ok data) = PollStep.next interval := by
  simp only [pollStepOf]
  rw [if_pos (by rw [h]; decide), if_pos h]

lemma pollStepOf_slowDown (interval : Nat) (data : TokenResponse)
    (h : data.error = "slow_down") :
    pollStepOf interval (Except.ok data) = PollStep.next (interval + 5) := by
  simp only [pollStepOf]
  rw [if_pos (by rw [h]; decide), if_neg (by rw [h]; decide), if_pos h]

lemma pollStepOf_terminal (interval : Nat) (data : TokenResponse)
    (h1 : data.error ≠ "") (h2 : data.error ≠ "authorization_pending")
    (h3 : data.error ≠ "slow_down") :
    pollStepOf interval (Except.ok data)
      = (if data.error = "expired_token" then
          PollStep.failure OAuthFailure.deviceCodeExpired
        else if data.error = "access_denied" then
          PollStep.failure OAuthFailure.userDeniedAuthorization
        else PollStep.failure (OAuthFailure.providerError data.error)) := by
  simp only [pollStepOf]
  rw [if_pos h1, if_neg h2, if_neg h3]

/-- Claim C5: a transport-level exception thrown during a poll request makes
`pollForAccessToken` reject immediately with that error: no wait is
scheduled and no further poll of the script is issued, whatever responses
would have followed. -/
theorem pollTransportErrorRejects (interval : Nat) (msg : String)
    (rest : List PollResponse) :
    pollRun interval (Except.error msg :: rest)
      = ([], some (Except.error (OAuthFailure.transportError msg))) := by
  rw [pollRun_cons]
  rfl

/-- Claim C3: a poll response whose `error` field is non-empty and neither
`authorization_pending` nor `slow_down` ends the attempt in a terminal
failure with no further polls: `expired_token` maps to the
device-code-expired error, `access_denied` to the user-denied error, any
other code to a provider error carrying that raw code, and in each case
the loop rejects at once, consuming nothing further from the script. -/
theorem pollTerminalErrors (interval : Nat) (data : TokenResponse)
    (rest : List PollResponse) (h1 : data.error ≠ "")
    (h2 : data.error ≠ "authorization_pending") (h3 : data.error ≠ "slow_down") :
    (∃ e, pollStepOf interval (Except.ok data) = PollStep.failure e)
    ∧ (data.error = "expired_token" →
        pollStepOf interval (Except.ok data)
          = PollStep.failure OAuthFailure.deviceCodeExpired)
    ∧ (data.error = "access_denied" →
        pollStepOf interval (Except.ok data)
          = PollStep.failure OAuthFailure.userDeniedAuthorization)
    ∧ (data.error ≠ "expired_token" → data.error ≠ "access_denied" →
        pollStepOf interval (Except.ok data)
          = PollStep.failure (OAuthFailure.providerError data.error))
    ∧ (∀ e, pollStepOf interval (Except.ok data) = PollStep.failure e →
        pollRun interval (Except.ok data :: rest) = ([], some (Except.error e))) := by
  have hstep := pollStepOf_terminal interval data h1 h2 h3
  refine ⟨?_, ?_, ?_, ?_, ?_⟩
  · rw [hstep]
    split_ifs <;> exact ⟨_, rfl⟩
  · intro h
    rw [hstep, if_pos h]
  · intro h
    rw [hstep, if_neg (by simp [h]), if_pos h]
  · intro h4 h5
    rw [hstep, if_neg h4, if_neg h5]
  · intro e he
    rw [pollRun_cons, he]

/-- Claim C3 witness: a concrete `server_error` response terminates the
attempt with a provider error carrying the raw code, and a concrete
`expired_token` response with the device-code-expired error. -/
theorem pollTerminalErrorsWitness :
    pollRun 5 [Except.ok (errResp "server_error"), Except.ok (tokResp "tok" "repo")]
      = ([], some (Except.error (OAuthFailure.providerError "server_error")))
    ∧ pollStepOf 5 (Except.ok (errResp "expired_token"))
      = PollStep.failure OAuthFailure.deviceCodeExpired := by
  have h := pollTerminalErrors 5 (errResp "server_error")
    [Except.ok (tokResp "tok" "repo")] (by decide) (by decide) (by decide)
  have h2 := pollTerminalErrors 5 (errResp "expired_token") [] (by decide)
    (by decide) (by decide)
  refine ⟨h.2.2.2.2 _ (h.2.2.2.1 (by decide) (by decide)), h2.2.1 (by decide)⟩

/-- Claim C4: a response with neither a non-empty `error` nor a non-empty
`access_token` is not an error: the loop treats it as pending, scheduling
the next poll after the current interval and continuing with the rest of
the script. -/
theorem pollMalformedKeepsPolling (interval : Nat) (data : TokenResponse)
    (rest : List PollResponse) (h1 : data.error = "")
    (h2 : data.access_token = "") :
    pollStepOf interval (Except.ok data) = PollStep.next interval
    ∧ pollRun interval (Except.ok data :: rest)
        = (interval :: (pollRun interval rest).1, (pollRun interval rest).2) := by
  have hstep := pollStepOf_empty interval data h1 h2
  exact ⟨hstep, by rw [pollRun_cons, hstep]⟩

/-- Claim C4 witness: a concrete empty-bodied response keeps the loop
polling into the rest of the script instead of failing. -/
theorem pollMalformedKeepsPollingWitness :
    pollRun 5 [Except.ok (errResp ""), Except.ok (tokResp "tok" "repo")]
      = ([5], some (Except.ok (tokResp "tok" "repo"))) := by
  have h := pollMalformedKeepsPolling 5 (errResp "")
    [Except.ok (tokResp "tok" "repo")] rfl rfl
  rw [h.2]
  decide

/-- Claim C6: classification checks the `error` field first — when `error`
is non-empty the step is unchanged under any replacement of the
`access_token` field — and the step is a success exactly when the response
carries no error and a non-empty access token. -/
theorem pollErrorCheckedFirst (interval : Nat) (data : TokenResponse) :
    (data.error ≠ "" → ∀ t, pollStepOf interval (Except.ok data)
        = pollStepOf interval (Except.ok { data with access_token := t }))
    ∧ ((∃ r, pollStepOf interval (Except.ok data) = PollStep.success r)
        ↔ (data.error = "" ∧ data.access_token ≠ "")) := by
  constructor
  · intro h t
    simp only [pollStepOf]
    rw [if_pos h, if_pos h]
  · constructor
    · rintro ⟨r, hr⟩
      by_cases h1 : data.error = ""
      · by_cases h2 : data.access_token = ""
        · exfalso
          rw [pollStepOf_empty interval data h1 h2] at hr
          exact PollStep.noConfusion hr
        · exact ⟨h1, h2⟩
      · exfalso
        simp only [pollStepOf] at hr
        rw [if_pos h1] at hr
        split_ifs at hr
    · rintro ⟨h1, h2⟩
      exact ⟨data, pollStepOf_token interval data h1 h2⟩

/-- Claim C6 witness: a concrete response carrying both an error and a
token classifies identically to the same response with the token blanked
(the error wins), and a concrete clean token response is a success. -/
theorem pollErrorCheckedFirstWitness :
    pollStepOf 5 (Except.ok (bothResp "access_denied" "tok"))
      = pollStepOf 5 (Except.ok { bothResp "access_denied" "tok" with access_token := "" })
    ∧ (∃ r, pollStepOf 5 (Except.ok (tokResp "tok" "repo")) = PollStep.success r) := by
  constructor
  · exact (pollErrorCheckedFirst 5 (bothResp "access_denied" "tok")).1 (by decide) ""
  · exact (pollErrorCheckedFirst 5 (tokResp "tok" "repo")).2.mpr ⟨rfl, by decide⟩

/-- Script exhibiting a wait after a later `authorization_pending` that
follows a `slow_down`. -/
def c2Script : List PollResponse :=
  [Except.ok (errResp "authorization_pending"), Except.ok (errResp "slow_down"),
   Except.ok (errResp "authorization_pending"), Except.ok (tokResp "tok" "repo")]

/-- Claim C2 counterexample: with interval 5 and responses pending,
slow_down, pending, success, the source waits 5, 10, 5 seconds — the third
wait uses the original interval again, not the increased 10 the claim's
persistent increase would require.  `interval` is never reassigned in the
source; only the single wait scheduled directly by the `slow_down` branch
uses `interval + 5`. -/
theorem slowDownIncreaseNotPersistent :
    pollRun 5 c2Script = ([5, 10, 5], some (Except.ok (tokResp "tok" "repo")))
    ∧ (pollRun 5 c2Script).1 ≠ [5, 10, 10] := by
  constructor
  · rfl
  · decide

/-- Claim C2 (amended): the waits of a polling run are computed response by
response from the unchanged original interval — a wait is `interval + 5`
exactly when the response just handled was `slow_down`, and `interval`
otherwise (in particular after every `authorization_pending`); the
increase applies only to the single wait scheduled by the `slow_down`
branch and does not persist.  The spec's three-step scenario (pending,
slow_down, token) still holds: waits `interval`, `interval + 5`, then
resolution. -/
theorem pollWaitsAmended (interval : Nat) (script : List PollResponse) :
    (pollRun interval script).1
      = (script.takeWhile (fun r => stepContinues (pollStepOf interval r))).map
          (fun r => stepWait (pollStepOf interval r))
    ∧ (∀ r : PollResponse, stepContinues (pollStepOf interval r) = true →
        stepWait (pollStepOf interval r)
          = if isSlowDownResp r then interval + 5 else interval)
    ∧ pollRun interval [Except.ok (errResp "authorization_pending"),
          Except.ok (errResp "slow_down"), Except.ok (tokResp "tok" "repo")]
        = ([interval, interval + 5], some (Except.ok (tokResp "tok" "repo"))) := by
  refine ⟨?_, ?_, ?_⟩
  · induction script with
    | nil => rfl
    | cons r rest ih =>
      rw [pollRun_cons]
      cases h : pollStepOf interval r with
      | next w => simp [List.takeWhile_cons, h, stepContinues, stepWait, ih]
      | failure e => simp [List.takeWhile_cons, h, stepContinues]
      | success d => simp [List.takeWhile_cons, h, stepContinues]
  · intro r hc
    cases r with
    | error msg => simp [pollStepOf, stepContinues] at hc
    | ok data =>
      by_cases h1 : data.error = ""
      · by_cases h2 : data.access_token = ""
        · rw [pollStepOf_empty interval data h1 h2]
          simp [stepWait, isSlowDownResp, h1]
        · rw [pollStepOf_token interval data h1 h2] at hc
          simp [stepContinues] at hc
      · by_cases hp : data.error = "authorization_pending"
        · rw [pollStepOf_pending interval data hp]
          simp [stepWait, isSlowDownResp, hp]
        · by_cases hs : data.error = "slow_down"
          · rw [pollStepOf_slowDown interval data hs]
            simp [stepWait, isSlowDownResp, hs]
          · rw [pollStepOf_terminal interval data h1 hp hs] at hc
            split_ifs at hc <;> simp [stepContinues] at hc
  · rw [pollRun_cons, pollStepOf_pending interval (errResp "authorization_pending") rfl,
      pollRun_cons, pollStepOf_slowDown interval (errResp "slow_down") rfl,
      pollRun_cons, pollStepOf_token interval (tokResp "tok" "repo") rfl (by decide)]

/-- The character class `[A-Za-z_]` of the spec's pattern, as a
proposition. -/
def SpecStartChar (c : Char) : Prop :=
  ('A' ≤ c ∧ c ≤ 'Z') ∨ ('a' ≤ c ∧ c ≤ 'z') ∨ c = '_'

/-- The character class `[A-Za-z0-9_]` of the spec's pattern. -/
def SpecBodyChar (c : Char) : Prop :=
  SpecStartChar c ∨ ('0' ≤ c ∧ c ≤ '9')

/-- The spec's validity condition, stated independently: the name matches
`^[A-Za-z_][A-Za-z0-9_]*$` (non-empty, first character in `[A-Za-z_]`,
remaining characters in `[A-Za-z0-9_]`) and the character sequence
`GITHUB_` is not a prefix of it. -/
def ValidSecretNameSpec (name : String) : Prop :=
  (∃ c cs, name.data = c :: cs ∧ SpecStartChar c ∧ ∀ x ∈ cs, SpecBodyChar x)
  ∧ ¬ ("GITHUB_".data <+: name.data)

lemma isStartChar_iff (c : Char) : isStartChar c = true ↔ SpecStartChar c := by
  simp [isStartChar, SpecStartChar, Bool.or_eq_true, Bool.and_eq_true,
    decide_eq_true_eq, or_assoc]

lemma isBodyChar_iff (c : Char) : isBodyChar c = true ↔ SpecBodyChar c := by
  simp [isBodyChar, SpecBodyChar, isStartChar_iff, Bool.or_eq_true,
    Bool.and_eq_true, decide_eq_true_eq]

lemma matchesNamePattern_iff (name : String) :
    matchesNamePattern name = true
      ↔ ∃ c cs, name.data = c :: cs ∧ SpecStartChar c ∧ ∀ x ∈ cs, SpecBodyChar x := by
  rcases h : name.data with _ | ⟨c, cs⟩
  · simp [matchesNamePattern, h]
  · simp only [matchesNamePattern, h, Bool.and_eq_true, List.all_eq_true,
      isStartChar_iff, isBodyChar_iff]
    constructor
    · rintro ⟨hc, hcs⟩
      exact ⟨c, cs, rfl, hc, hcs⟩
    · rintro ⟨c', cs', heq, hc, hcs⟩
      obtain ⟨rfl, rfl⟩ : c = c' ∧ cs = cs' := by
        exact ⟨(List.cons.injEq .. ▸ heq).1, (List.cons.injEq .. ▸ heq).2⟩
      exact ⟨hc, hcs⟩

/-- Claim C8: `validateSecretName` is a pure total predicate returning true
exactly on names matching `^[A-Za-z_][A-Za-z0-9_]*$` that do not start
with the case-sensitive prefix `GITHUB_`; in particular it rejects
`GITHUB_FOO`, `1ABC` and `bad-name` (and accepts `MY_SECRET`). -/
theorem validateSecretNameCharacterization :
    (∀ name : String, validateSecretName name = true ↔ ValidSecretNameSpec name)
    ∧ validateSecretName "GITHUB_FOO" = false
    ∧ validateSecretName "1ABC" = false
    ∧ validateSecretName "bad-name" = false
    ∧ validateSecretName "MY_SECRET" = true := by
  refine ⟨?_, by decide, by decide, by decide, by decide⟩
  intro name
  simp only [validateSecretName, Bool.and_eq_true, Bool.not_eq_true',
    ValidSecretNameSpec]
  rw [matchesNamePattern_iff]
  have hiff : "GITHUB_".data.isPrefixOf name.data = true
      ↔ "GITHUB_".data <+: name.data :=
    List.isPrefixOf_iff_prefix
  constructor
  · rintro ⟨hpre, hm⟩
    refine ⟨hm, fun hc => ?_⟩
    rw [← hiff, hpre] at hc
    exact Bool.noConfusion hc
  · rintro ⟨hm, hpre⟩
    refine ⟨?_, hm⟩
    cases hb : "GITHUB_".data.isPrefixOf name.data
    · rfl
    · exact absurd (hiff.mp hb) hpre

/-- Claim C8 witness: the characterization applied at the concrete name
`MY_SECRET` — the code accepts it and the spec-side condition holds. -/
theorem validateSecretNameCharacterizationWitness :
    validateSecretName "MY_SECRET" = true ∧ ValidSecretNameSpec "MY_SECRET" := by
  exact ⟨by decide,
    (validateSecretNameCharacterization.1 "MY_SECRET").mp (by decide)⟩

/-- The spec's partition example: `{GOOD=1, GITHUB_BAD=2, 1BAD=3}`. -/
def c9Input : List (String × String) :=
  [("GOOD", "1"), ("GITHUB_BAD", "2"), ("1BAD", "3")]

/-- Claim C9: `filterValidSecrets` keeps every entry with a valid name in
the valid result with its value unchanged (the valid result is exactly the
order-preserving filter of the input), the invalid list is exactly the
input-ordered names failing validation, and every input entry lands in
exactly one of the two results. -/
theorem filterValidSecretsPartitions (secrets : List (String × String)) :
    (filterValidSecrets secrets).1
      = secrets.filter (fun p => validateSecretName p.1)
    ∧ (filterValidSecrets secrets).2
      = (secrets.map Prod.fst).filter (fun n => !validateSecretName n)
    ∧ ∀ p ∈ secrets,
        (p ∈ (filterValidSecrets secrets).1
          ∧ p.1 ∉ (filterValidSecrets secrets).2)
        ∨ (p.1 ∈ (filterValidSecrets secrets).2
          ∧ p ∉ (filterValidSecrets secrets).1) := by
  have h1 : ∀ l : List (String × String),
      (filterValidSecrets l).1 = l.filter (fun p => validateSecretName p.1) := by
    intro l
    induction l with
    | nil => rfl
    | cons p rest ih =>
      by_cases hv : validateSecretName p.1 <;>
        simp [filterValidSecrets, List.filter_cons, hv, ih]
  have h2 : ∀ l : List (String × String),
      (filterValidSecrets l).2
        = (l.map Prod.fst).filter (fun n => !validateSecretName n) := by
    intro l
    induction l with
    | nil => rfl
    | cons p rest ih =>
      by_cases hv : validateSecretName p.1 <;>
        simp [filterValidSecrets, List.filter_cons, hv, ih]
  refine ⟨h1 secrets, h2 secrets, ?_⟩
  intro p hp
  by_cases hv : validateSecretName p.1
  · left
    constructor
    · rw [h1 secrets]
      exact List.mem_filter.mpr ⟨hp, by simpa using hv⟩
    · rw [h2 secrets]
      intro hmem
      have := (List.mem_filter.mp hmem).2
      simp [hv] at this
  · right
    constructor
    · rw [h2 secrets]
      exact List.mem_filter.mpr ⟨List.mem_map.mpr ⟨p, hp, rfl⟩, by simpa using hv⟩
    · rw [h1 secrets]
      intro hmem
      have := (List.mem_filter.mp hmem).2
      simp [hv] at this

/-- Claim C9 witness: on the spec's example input the partition evaluates
to valid `{GOOD: 1}` with invalid `[GITHUB_BAD, 1BAD]` in input order, and
the entry `GOOD = 1` lands in exactly one side. -/
theorem filterValidSecretsPartitionsWitness :
    filterValidSecrets c9Input = ([("GOOD", "1")], ["GITHUB_BAD", "1BAD"])
    ∧ ((("GOOD", "1") ∈ (filterValidSecrets c9Input).1
        ∧ "GOOD" ∉ (filterValidSecrets c9Input).2)
      ∨ ("GOOD" ∈ (filterValidSecrets c9Input).2
        ∧ ("GOOD", "1") ∉ (filterValidSecrets c9Input).1)) := by
  exact ⟨by decide,
    (filterValidSecretsPartitions c9Input).2.2 ("GOOD", "1") (by decide)⟩

/-- Whether an attempted upload completed without throwing. -/
def attemptOk (r : Except String Unit) : Bool :=
  match r with
  | Except.ok _ => true
  | Except.error _ => false

/-- Claim C10: `batchCreateSecrets` walks the entries in input order,
attempting the pipeline for every one — a throw for one secret never stops
the rest — and the results cover the input exactly: `success` is the
input-ordered names of the completed uploads, `failed` the input-ordered
name/message pairs of the throwing ones, their lengths sum to the input
length, every completing entry's name is in `success`, every throwing
entry's name is in `failed` with its error message, and (for distinct
input names, as `Object.entries` yields) each name is in exactly one of
the two. -/
theorem batchCreateSecretsCovers (attempt : String → String → Except String Unit)
    (secrets : List (String × String)) :
    (batchCreateSecrets attempt secrets).1
      = (secrets.filter (fun p => attemptOk (attempt p.1 p.2))).map Prod.fst
    ∧ (batchCreateSecrets attempt secrets).2
      = secrets.filterMap (fun p => match attempt p.1 p.2 with
          | Except.ok _ => none
          | Except.error e => some (p.1, e))
    ∧ (batchCreateSecrets attempt secrets).1.length
        + (batchCreateSecrets attempt secrets).2.length = secrets.length
    ∧ (∀ p ∈ secrets,
        (attempt p.1 p.2 = Except.ok () →
          p.1 ∈ (batchCreateSecrets attempt secrets).1)
        ∧ ∀ e, attempt p.1 p.2 = Except.error e →
          (p.1, e) ∈ (batchCreateSecrets attempt secrets).2)
    ∧ ((secrets.map Prod.fst).Nodup → ∀ p ∈ secrets,
        (p.1 ∈ (batchCreateSecrets attempt secrets).1
          ∧ p.1 ∉ (batchCreateSecrets attempt secrets).2.map Prod.fst)
        ∨ (p.1 ∈ (batchCreateSecrets attempt secrets).2.map Prod.fst
          ∧ p.1 ∉ (batchCreateSecrets attempt secrets).1)) := by
  have h1 : ∀ l : List (String × String),
      (batchCreateSecrets attempt l).1
        = (l.filter (fun p => attemptOk (attempt p.1 p.2))).map Prod.fst := by
    intro l
    induction l with
    | nil => rfl
    | cons p rest ih =>
      cases ha : attempt p.1 p.2 <;>
        simp [batchCreateSecrets, List.filter_cons, ha, attemptOk, ih]
  have h2 : ∀ l : List (String × String),
      (batchCreateSecrets attempt l).2
        = l.filterMap (fun p => match attempt p.1 p.2 with
            | Except.ok _ => none
            | Except.error e => some (p.1, e)) := by
    intro l
    induction l with
    | nil => rfl
    | cons p rest ih =>
      cases ha : attempt p.1 p.2 <;>
        simp [batchCreateSecrets, List.filterMap_cons, ha, ih]
  have h2' : ∀ l : List (String × String),
      (batchCreateSecrets attempt l).2.map Prod.fst
        = (l.filter (fun p => !attemptOk (attempt p.1 p.2))).map Prod.fst := by
    intro l
    induction l with
    | nil => rfl
    | cons p rest ih =>
      cases ha : attempt p.1 p.2 <;>
        simp [batchCreateSecrets, List.filter_cons, ha, attemptOk, ih]
  have hlen : ∀ l : List (String × String),
      (batchCreateSecrets attempt l).1.length
        + (batchCreateSecrets attempt l).2.length = l.length := by
    intro l
    induction l with
    | nil => rfl
    | cons p rest ih =>
      cases ha : attempt p.1 p.2 <;>
        simp [batchCreateSecrets, ha] <;> omega
  refine ⟨h1 secrets, h2 secrets, hlen secrets, ?_, ?_⟩
  · intro p hp
    constructor
    · intro hok
      rw [h1 secrets]
      exact List.mem_map.mpr ⟨p, List.mem_filter.mpr ⟨hp, by simp [hok, attemptOk]⟩, rfl⟩
    · intro e he
      rw [h2 secrets]
      exact List.mem_filterMap.mpr ⟨p, hp, by simp [he]⟩
  · intro hnd p hp
    by_cases hok : attemptOk (attempt p.1 p.2) = true
    · left
      constructor
      · rw [h1 secrets]
        exact List.mem_map.mpr ⟨p, List.mem_filter.mpr ⟨hp, hok⟩, rfl⟩
      · rw [h2' secrets]
        intro hmem
        obtain ⟨q, hq, hq1⟩ := List.mem_map.mp hmem
        have hqin := (List.mem_filter.mp hq).1
        have hqbad := (List.mem_filter.mp hq).2
        have : q = p := List.inj_on_of_nodup_map hnd hqin hp hq1
        rw [this] at hqbad
        simp [hok] at hqbad
    · right
      constructor
      · rw [h2' secrets]
        exact List.mem_map.mpr ⟨p, List.mem_filter.mpr ⟨hp, by simp [hok]⟩, rfl⟩
      · rw [h1 secrets]
        intro hmem
        obtain ⟨q, hq, hq1⟩ := List.mem_map.mp hmem
        have hqin := (List.mem_filter.mp hq).1
        have hqok := (List.mem_filter.mp hq).2
        have : q = p := List.inj_on_of_nodup_map hnd hqin hp hq1
        rw [this] at hqok
        exact hok hqok

/-- An attempt oracle for the witness: uploading `B` throws, others
complete. -/
def c10Attempt : String → String → Except String Unit :=
  fun n _ => if n = "B" then Except.error "boom" else Except.ok ()

/-- Input record for the C10 witness. -/
def c10Input : List (String × String) :=
  [("A", "1"), ("B", "2"), ("C", "3")]

/-- Claim C10 witness: with `B` throwing, the batch still processes `C`,
returning success `[A, C]` and failed `[(B, boom)]`, and the entry `A`
lands in exactly one result list. -/
theorem batchCreateSecretsCoversWitness :
    batchCreateSecrets c10Attempt c10Input = (["A", "C"], [("B", "boom")])
    ∧ (("A" ∈ (batchCreateSecrets c10Attempt c10Input).1
        ∧ "A" ∉ (batchCreateSecrets c10Attempt c10Input).2.map Prod.fst)
      ∨ ("A" ∈ (batchCreateSecrets c10Attempt c10Input).2.map Prod.fst
        ∧ "A" ∉ (batchCreateSecrets c10Attempt c10Input).1)) := by
  exact ⟨by decide,
    (batchCreateSecretsCovers c10Attempt c10Input).2.2.2.2 (by decide)
      ("A", "1") (by decide)⟩

/-- Claim C7: `encryptSecret` performs exactly the specified transform:
when the public key decodes from standard-alphabet base64 the result is
the base64 encoding of the sealed box of the plaintext's UTF-8 bytes under
the decoded key — nothing else touches the plaintext — and when the key is
malformed base64 the call fails with the encoding error, independently of
the sealing primitive (no encryption output is produced); `%%%%` (bad
alphabet) and `AB==` / `AAB=` (non-zero discarded padding bits, rejected
by `sodium_base642bin`) are such malformed keys. -/
theorem encryptSecretTransform :
    (∀ (sealBox : List Nat → List Nat → List Nat) (v pk : String)
        (binkey : List Nat), from_base64 pk = some binkey →
        encryptSecret sealBox v pk
          = Except.ok (to_base64 (sealBox (from_string v) binkey)))
    ∧ (∀ (sealBox sealBox2 : List Nat → List Nat → List Nat) (v pk : String),
        from_base64 pk = none →
        encryptSecret sealBox v pk = Except.error EncError.encodingError
        ∧ encryptSecret sealBox v pk = encryptSecret sealBox2 v pk)
    ∧ from_base64 "%%%%" = none
    ∧ from_base64 "AB==" = none
    ∧ from_base64 "AAB=" = none := by
  refine ⟨?_, ?_, by decide, by decide, by decide⟩
  · intro sealBox v pk binkey h
    simp [encryptSecret, h]
  · intro sealBox sealBox2 v pk h
    simp [encryptSecret, h]

/-- Claim C7 witness: the all-zero four-character key decodes to three zero
bytes and a concrete plaintext encrypts to the sealed-then-base64 result,
while the malformed keys `%%%%` and `AB==` (non-canonical padding bits)
yield the encoding error whatever the sealing primitive. -/
theorem encryptSecretTransformWitness :
    encryptSecret (fun m k => m ++ k) "x" "AAAA"
      = Except.ok (to_base64 (from_string "x" ++ [0, 0, 0]))
    ∧ encryptSecret (fun m _ => m) "x" "%%%%"
      = Except.error EncError.encodingError
    ∧ encryptSecret (fun m _ => m) "x" "AB=="
      = Except.error EncError.encodingError := by
  refine ⟨encryptSecretTransform.1 (fun m k => m ++ k) "x" "AAAA" [0, 0, 0] (by decide), ?_, ?_⟩
  · exact (encryptSecretTransform.2.1 (fun m _ => m) (fun _ k => k) "x" "%%%%" (by decide)).1
  · exact (encryptSecretTransform.2.1 (fun m _ => m) (fun _ k => k) "x" "AB==" (by decide)).1

/-- Claim C1: in `createOrUpdateRepoSecret`, every PUT sent to the secrets
API gateway carries exactly the sealed-box ciphertext of the secret under
the fetched key together with that key's `key_id` (so the plaintext never
crosses in its place), and if the public-key fetch throws or encryption
fails then no PUT is issued at all — the trace stops at the key fetch. -/
theorem createOrUpdateRepoSecretSealedOnly
    (sealBox : List Nat → List Nat → List Nat)
    (getKeyResult : Except String PublicKey) (putResult : Except String Unit)
    (owner repo secretName secretValue : String) :
    (∀ o r sn ev kid,
        ApiRequest.putSecret o r sn ev kid
            ∈ (createOrUpdateRepoSecret sealBox getKeyResult putResult
                owner repo secretName secretValue).2 →
        o = owner ∧ r = repo ∧ sn = secretName
        ∧ ∃ pk, getKeyResult = Except.ok pk
            ∧ encryptSecret sealBox secretValue pk.key = Except.ok ev
            ∧ kid = pk.key_id)
    ∧ (∀ msg, getKeyResult = Except.error msg →
        (createOrUpdateRepoSecret sealBox getKeyResult putResult
            owner repo secretName secretValue).2
          = [ApiRequest.getPublicKey owner repo])
    ∧ (∀ pk, getKeyResult = Except.ok pk →
        encryptSecret sealBox secretValue pk.key
            = Except.error EncError.encodingError →
        (createOrUpdateRepoSecret sealBox getKeyResult putResult
            owner repo secretName secretValue).2
          = [ApiRequest.getPublicKey owner repo]) := by
  cases getKeyResult with
  | error msg =>
    refine ⟨?_, ?_, ?_⟩
    · intro o r sn ev kid hmem
      simp [createOrUpdateRepoSecret] at hmem
    · intro msg' _
      simp [createOrUpdateRepoSecret]
    · intro pk h
      exact absurd h (by simp)
  | ok pk =>
    cases henc : encryptSecret sealBox secretValue pk.key with
    | error e =>
      refine ⟨?_, ?_, ?_⟩
      · intro o r sn ev kid hmem
        simp [createOrUpdateRepoSecret, henc] at hmem
      · intro msg h
        exact absurd h (by simp)
      · intro pk' hpk _
        obtain rfl : pk = pk' := by
          simpa using hpk
        simp [createOrUpdateRepoSecret, henc]
    | ok encryptedValue =>
      refine ⟨?_, ?_, ?_⟩
      · intro o r sn ev kid hmem
        cases putResult <;>
          · simp only [createOrUpdateRepoSecret, henc, List.mem_cons,
              List.mem_singleton] at hmem
            rcases hmem with h | h | h
            · exact absurd h (by simp)
            · obtain ⟨rfl, rfl, rfl, rfl, rfl⟩ :
                  o = owner ∧ r = repo ∧ sn = secretName
                  ∧ ev = encryptedValue ∧ kid = pk.key_id := by
                simpa using h
              exact ⟨rfl, rfl, rfl, pk, rfl, henc, rfl⟩
            · exact absurd h (by simp)
      · intro msg h
        exact absurd h (by simp)
      · intro pk' hpk henc'
        obtain rfl : pk = pk' := by
          simpa using hpk
        rw [henc] at henc'
        exact absurd henc' (by simp)

/-- Claim C1 witness: with a concrete key, sealing primitive and successful
PUT, the single PUT in the trace satisfies the sealed-only property; with
a failing key fetch the trace is just the key request. -/
theorem createOrUpdateRepoSecretSealedOnlyWitness :
    ((("o" : String) = "o") ∧ ("r" : String) = "r" ∧ ("N" : String) = "N"
      ∧ ∃ pk, (Except.ok { key_id := "kid1", key := "AAAA" }
            : Except String PublicKey) = Except.ok pk
        ∧ encryptSecret (fun m k => m ++ k) "v" pk.key
            = Except.ok (to_base64 (from_string "v" ++ [0, 0, 0]))
        ∧ ("kid1" : String) = pk.key_id)
    ∧ (createOrUpdateRepoSecret (fun m k => m ++ k)
        (Except.error "down") (Except.ok ()) "o" "r" "N" "v").2
      = [ApiRequest.getPublicKey "o" "r"] := by
  constructor
  · exact (createOrUpdateRepoSecretSealedOnly (fun m k => m ++ k)
      (Except.ok { key_id := "kid1", key := "AAAA" }) (Except.ok ())
      "o" "r" "N" "v").1 "o" "r" "N"
      (to_base64 (from_string "v" ++ [0, 0, 0])) "kid1" (by decide)
  · exact (createOrUpdateRepoSecretSealedOnly (fun m k => m ++ k)
      (Except.error "down") (Except.ok ()) "o" "r" "N" "v").2.1 "down" rfl

/-- Claim C2 (amended) witness: at interval 5 the run over the
counterexample script has waits 5, 10, 5 matching the per-response wait
rule, and the continuing slow_down step indeed waits 10. -/
theorem pollWaitsAmendedWitness :
    stepWait (pollStepOf 5 (Except.ok (errResp "slow_down"))) = 10
    ∧ pollRun 5 [Except.ok (errResp "authorization_pending"),
          Except.ok (errResp "slow_down"), Except.ok (tokResp "tok" "repo")]
        = ([5, 10], some (Except.ok (tokResp "tok" "repo"))) := by
  refine ⟨?_, (pollWaitsAmended 5 []).2.2⟩
  have h := (pollWaitsAmended 5 []).2.1 (Except.ok (errResp "slow_down")) (by decide)
  rw [h]
  decide

end GhSecretsCli
